import Mathlib

/-!
Verification of the dice-notation interpreter of the VTT API
(`dice_utils.py`): the expression parser `parse_dice_expression`, the
combined roller `roll_dice` and the boolean wrapper
`validate_dice_expression`, embedded shallowly over lists of characters.

The regex scan `re.findall(r'(\d*)d(\d+)([+-]\d+)?', expression)` is
modelled by `findTerms`: at each position the pattern is attempted
(`tryMatch`); on success the three groups are recorded and scanning
resumes after the match, otherwise scanning advances one character.
Greediness of `\d*`, `\d+` and of the optional `([+-]\d+)?` group is
captured by maximal digit runs (`spanDigits`).  Randomness is modelled
by an explicit generator `g : Nat → Nat` consumed sequentially, each
draw being reduced into the inclusive range `[1, sides]`.
-/

namespace VTT

/-- Decimal-digit test for one character, as the pattern class `\d`
classifies the characters occurring in the inputs considered here. -/
def isDig (c : Char) : Bool := 48 ≤ c.toNat && c.toNat ≤ 57

/-- Lowercasing of one character as performed by the source's
`.lower()` call on the ASCII range. -/
def pyLower (c : Char) : Char :=
  if 65 ≤ c.toNat && c.toNat ≤ 90 then Char.ofNat (c.toNat + 32) else c

/-- Embedding of `expression.replace(" ", "").lower()` at the start of
`parse_dice_expression`: only the space character is removed. -/
def normalize (s : String) : String :=
  String.mk ((s.data.filter (fun c => c != ' ')).map pyLower)

/-- Maximal run of decimal digits at the head of a character list, the
behaviour of a greedy `\d*` at a fixed position. -/
def spanDigits : List Char → List Char × List Char
  | [] => ([], [])
  | c :: cs =>
    if isDig c then
      let p := spanDigits cs
      (c :: p.1, p.2)
    else ([], c :: cs)

/-- Sign-character test, the class `[+-]` of the modifier group. -/
def isSign (c : Char) : Bool := c == '+' || c == '-'

/-- One attempt of the pattern `(\d*)d(\d+)([+-]\d+)?` anchored at the
head of `l`.  On success, returns the text of the three groups (the
optional third group as `[]` when absent) and the remainder of the
input after the match. -/
def tryMatch (l : List Char) :
    Option (List Char × List Char × List Char × List Char) :=
  match spanDigits l with
  | (ds, 'd' :: rest2) =>
    match spanDigits rest2 with
    | (s0 :: ss, c :: rest4) =>
      if isSign c then
        match spanDigits rest4 with
        | (m0 :: ms, rest5) => some (ds, s0 :: ss, c :: m0 :: ms, rest5)
        | ([], _) => some (ds, s0 :: ss, [], c :: rest4)
      else some (ds, s0 :: ss, [], c :: rest4)
    | (s0 :: ss, []) => some (ds, s0 :: ss, [], [])
    | ([], _) => none
  | _ => none

/-- Fuelled scanning loop behind `findTerms`; the fuel only needs to
dominate the length of the list, which strictly decreases at every
step. -/
def findTermsAux : Nat → List Char → List (List Char × List Char × List Char)
  | 0, _ => []
  | _ + 1, [] => []
  | fuel + 1, c :: cs =>
    match tryMatch (c :: cs) with
    | some (g1, g2, g3, rest) => (g1, g2, g3) :: findTermsAux fuel rest
    | none => findTermsAux fuel cs

/-- Embedding of `re.findall(pattern, expression)`: all non-overlapping
matches of the term pattern, scanned left to right. -/
def findTerms (l : List Char) : List (List Char × List Char × List Char) :=
  findTermsAux l.length l

/-- Numeric value of one digit character, as `int()` reads it. -/
def charToDigit (c : Char) : Nat := c.toNat - 48

/-- Numeric value of a run of digit characters, as `int()` reads it. -/
def digitsToNat (ds : List Char) : Nat :=
  ds.foldl (fun a c => 10 * a + charToDigit c) 0

/-- Conversion of one match into a `(count, sides, modifier)` triple,
as the loop body of `parse_dice_expression` builds it: an empty count
group defaults to 1, an absent modifier group to 0, and a leading `-`
negates the modifier digits. -/
def toComponent (m : List Char × List Char × List Char) : Nat × Nat × Int :=
  let count := if m.1 = [] then 1 else digitsToNat m.1
  let sides := digitsToNat m.2.1
  let modifier : Int :=
    match m.2.2 with
    | [] => 0
    | c :: ds => if c = '-' then -(digitsToNat ds : Int) else (digitsToNat ds : Int)
  (count, sides, modifier)

/-- Failure taxonomy of `parse_dice_expression`, one constructor per
`ValueError` site. -/
inductive DiceError
  | invalidExpression (expr : String)
  | invalidCount (count : Nat)
  | invalidSides (sides : Nat)
deriving DecidableEq

/-- Character of one decimal digit value. -/
def digitToChar (d : Nat) : Char := Char.ofNat (48 + d)

/-- Fuelled digit writer behind `natToChars`. -/
def natToCharsAux : Nat → Nat → List Char
  | 0, _ => []
  | _, 0 => []
  | fuel + 1, n + 1 =>
    natToCharsAux fuel ((n + 1) / 10) ++ [digitToChar ((n + 1) % 10)]

/-- Decimal digit characters of a positive number, most significant
first; empty for 0 (callers needing `str(0)` go through `natStr`). -/
def natToChars (n : Nat) : List Char := natToCharsAux n n

/-- Decimal rendering of a natural number, as `str()` writes it. -/
def natStr (n : Nat) : String :=
  if n = 0 then "0" else String.mk (natToChars n)

/-- Decimal rendering of an integer, as `str()` writes it. -/
def intStr (m : Int) : String :=
  if m < 0 then "-" ++ natStr m.natAbs else natStr m.natAbs

/-- Sign-explicit rendering of an integer, as the format `{m:+d}`
writes it. -/
def intStrSigned (m : Int) : String :=
  if m < 0 then intStr m else "+" ++ intStr m

/-- Message text of each failure, following the `f`-strings of
`parse_dice_expression`; the invalid-expression message carries the
normalized text, since the local variable was rebound before the
`raise`. -/
def DiceError.message : DiceError → String
  | .invalidExpression e => "Invalid dice expression: " ++ e
  | .invalidCount c => "Invalid dice count: " ++ natStr c
  | .invalidSides s => "Invalid dice sides: " ++ natStr s

/-- Bounds-checking loop of `parse_dice_expression`: each triple is
checked in order (count first, then sides) and the first violation
aborts with the corresponding error. -/
def checkComponents : List (Nat × Nat × Int) → Except DiceError (List (Nat × Nat × Int))
  | [] => .ok []
  | (c, s, m) :: rest =>
    if c = 0 || 100 < c then .error (.invalidCount c)
    else if s = 0 || 1000 < s then .error (.invalidSides s)
    else
      match checkComponents rest with
      | .error e => .error e
      | .ok comps => .ok ((c, s, m) :: comps)

/-- Embedding of `parse_dice_expression`: normalize, scan for term
matches, fail when none is found, otherwise convert and bounds-check
every match in order. -/
def parse_dice_expression (expression : String) :
    Except DiceError (List (Nat × Nat × Int)) :=
  let e := normalize expression
  let ms := findTerms e.data
  if ms = [] then .error (.invalidExpression e)
  else checkComponents (ms.map toComponent)

/-- Matches extracted from an expression before any bounds check. -/
def rawMatches (s : String) : List (List Char × List Char × List Char) :=
  findTerms (normalize s).data

/-- Components extracted from an expression before any bounds check. -/
def rawComponents (s : String) : List (Nat × Nat × Int) :=
  (rawMatches s).map toComponent

/-- One random draw: `random.randint(1, sides)` modelled over an
explicit generator, the `i`-th raw value reduced into `[1, sides]`. -/
def draw (g : Nat → Nat) (i : Nat) (sides : Nat) : Nat := 1 + g i % sides

/-- Draws of one term: `count` successive values from the shared
generator, starting at stream position `idx`. -/
def rollsFor (g : Nat → Nat) (idx count sides : Nat) : List Nat :=
  (List.range count).map (fun j => draw g (idx + j) sides)

/-- Per-term display fragment, following the string-building branch of
`roll_dice` exactly: a single draw is printed alone inside the
brackets, several draws are joined with `+`, and the signed modifier
appears only when nonzero. -/
def termFragment (count sides : Nat) (modifier : Int) (rolls : List Nat) : String :=
  let dice_str := natStr count ++ "d" ++ natStr sides
  let roll_detail :=
    match rolls with
    | [r] => "[" ++ natStr r ++ "]"
    | _ => "[" ++ String.intercalate "+" (rolls.map natStr) ++ "]"
  let dice_total : Int := (rolls.sum : Int) + modifier
  if modifier ≠ 0 then
    dice_str ++ ": " ++ roll_detail ++ intStrSigned modifier ++ " = " ++ intStr dice_total
  else
    dice_str ++ ": " ++ roll_detail ++ " = " ++ intStr dice_total

/-- Evaluation loop of `roll_dice` over the parsed components: total
and per-term fragments, the generator consumed left to right. -/
def evalComponents (g : Nat → Nat) : Nat → List (Nat × Nat × Int) → Int × List String
  | _, [] => (0, [])
  | idx, (c, s, m) :: rest =>
    let rolls := rollsFor g idx c s
    let dice_total : Int := (rolls.sum : Int) + m
    let tail := evalComponents g (idx + c) rest
    (dice_total + tail.1, termFragment c s m rolls :: tail.2)

/-- Embedding of `roll_dice`: parse, evaluate, join the fragments with
`" | "`, and echo the caller's expression; a parse failure is rewrapped
into a message prefixed with `"Error rolling dice: "`. -/
def roll_dice (g : Nat → Nat) (expression : String) :
    Except String (Int × String × String) :=
  match parse_dice_expression expression with
  | .error e => .error ("Error rolling dice: " ++ e.message)
  | .ok comps =>
    let r := evalComponents g 0 comps
    .ok (r.1, String.intercalate " | " r.2, expression)

/-- Embedding of `validate_dice_expression`: `True` exactly when
parsing succeeds. -/
def validate_dice_expression (expression : String) : Bool :=
  match parse_dice_expression expression with
  | .ok _ => true
  | .error _ => false

/-- Out-of-bounds test on one extracted triple, mirroring the two
range checks of `parse_dice_expression`. -/
def badTerm (t : Nat × Nat × Int) : Bool :=
  t.1 = 0 || 100 < t.1 || t.2.1 = 0 || 1000 < t.2.1

/-- Error reported for one out-of-bounds triple, count checked first as
in the source. -/
def termError (t : Nat × Nat × Int) : DiceError :=
  if t.1 = 0 || 100 < t.1 then .invalidCount t.1 else .invalidSides t.2.1

/-- Per-term display fragment exactly as §4.2 of the specification
words it: `"{count}d{sides}: [{draws joined by '+'}]{signed modifier
if nonzero} = {subtotal}"`. -/
def fragmentSpec (count sides : Nat) (modifier : Int) (rolls : List Nat) : String :=
  natStr count ++ "d" ++ natStr sides ++ ": [" ++
    String.intercalate "+" (rolls.map natStr) ++ "]" ++
    (if modifier = 0 then "" else intStrSigned modifier) ++ " = " ++
    intStr ((rolls.sum : Int) + modifier)

/-- Fragments the specification predicts for a whole term sequence,
the generator consumed left to right. -/
def specFragments (g : Nat → Nat) : Nat → List (Nat × Nat × Int) → List String
  | _, [] => []
  | idx, (c, s, m) :: rest =>
    fragmentSpec c s m (rollsFor g idx c s) :: specFragments g (idx + c) rest

/-- Rendered single-term text of §8 of the specification:
`f"{count}d{sides}{modifier:+d}"`, the unsigned form when the modifier
is zero. -/
def renderTerm (count sides : Nat) (modifier : Int) : String :=
  natStr count ++ "d" ++ natStr sides ++
    (if modifier = 0 then "" else intStrSigned modifier)

/-- Characters contributed by the modifier part of a rendered term. -/
def modCharsOf (m : Int) : List Char :=
  if m = 0 then [] else (if m < 0 then '-' else '+') :: natToChars m.natAbs

instance {ε α : Type} [DecidableEq ε] [DecidableEq α] : DecidableEq (Except ε α)
  | .ok a, .ok b =>
    if h : a = b then isTrue (by rw [h]) else isFalse (by intro hh; cases hh; exact h rfl)
  | .ok _, .error _ => isFalse (by intro h; cases h)
  | .error _, .ok _ => isFalse (by intro h; cases h)
  | .error a, .error b =>
    if h : a = b then isTrue (by rw [h]) else isFalse (by intro hh; cases hh; exact h rfl)

lemma isDig_iff {c : Char} : isDig c = true ↔ 48 ≤ c.toNat ∧ c.toNat ≤ 57 := by
  simp [isDig]

lemma digitToChar_toNat {d : Nat} (h : d < 10) : (digitToChar d).toNat = 48 + d := by
  interval_cases d <;> decide

lemma isDig_digitToChar {d : Nat} (h : d < 10) : isDig (digitToChar d) = true := by
  interval_cases d <;> decide

lemma charToDigit_digitToChar {d : Nat} (h : d < 10) : charToDigit (digitToChar d) = d := by
  simp [charToDigit, digitToChar_toNat h]

lemma pyLower_of_isDig {c : Char} (h : isDig c = true) : pyLower c = c := by
  rw [isDig_iff] at h
  simp only [pyLower]
  rw [if_neg]
  simp only [Bool.and_eq_true, decide_eq_true_eq, not_and]
  omega

lemma ne_space_of_isDig {c : Char} (h : isDig c = true) : (c != ' ') = true := by
  rw [isDig_iff] at h
  simp only [bne_iff_ne, ne_eq]
  intro hc
  rw [hc] at h
  simp at h

lemma not_isSign_of_isDig {c : Char} (h : isDig c = true) : isSign c = false := by
  rw [isDig_iff] at h
  simp only [isSign, Bool.or_eq_false_iff, beq_eq_false_iff_ne, ne_eq]
  constructor <;> intro hc <;> rw [hc] at h <;> simp at h

lemma isSign_elim {c : Char} (h : isSign c = true) : c = '+' ∨ c = '-' := by
  simpa [isSign] using h

lemma not_isDig_of_isSign {c : Char} (h : isSign c = true) : isDig c = false := by
  rcases isSign_elim h with rfl | rfl <;> decide

lemma natToCharsAux_congr :
    ∀ f1 f2 n, n ≤ f1 → n ≤ f2 → natToCharsAux f1 n = natToCharsAux f2 n := by
  intro f1
  induction f1 with
  | zero =>
    intro f2 n h1 _
    have hn : n = 0 := Nat.le_zero.mp h1
    subst hn
    cases f2 <;> rfl
  | succ f ih =>
    intro f2 n h1 h2
    cases n with
    | zero => cases f2 <;> rfl
    | succ m =>
      cases f2 with
      | zero => omega
      | succ f2p =>
        simp only [natToCharsAux]
        have hd : (m + 1) / 10 < m + 1 := Nat.div_lt_self (Nat.succ_pos m) (by omega)
        rw [ih f2p ((m + 1) / 10) (by omega) (by omega)]

lemma natToChars_pos_eq {n : Nat} (h : 0 < n) :
    natToChars n = natToChars (n / 10) ++ [digitToChar (n % 10)] := by
  cases n with
  | zero => omega
  | succ m =>
    show natToCharsAux (m + 1) (m + 1) = _
    simp only [natToCharsAux]
    have hd : (m + 1) / 10 < m + 1 := Nat.div_lt_self (Nat.succ_pos m) (by omega)
    rw [natToCharsAux_congr m ((m + 1) / 10) ((m + 1) / 10) (by omega) le_rfl]
    rfl

lemma natToChars_zero : natToChars 0 = [] := rfl

lemma natToChars_isDig : ∀ n, ∀ c ∈ natToChars n, isDig c = true := by
  intro n
  induction n using Nat.strong_induction_on with
  | _ n ih =>
    intro c hc
    cases n with
    | zero => simp [natToChars_zero] at hc
    | succ m =>
      rw [natToChars_pos_eq (Nat.succ_pos m)] at hc
      rcases List.mem_append.mp hc with h | h
      · exact ih _ (Nat.div_lt_self (Nat.succ_pos m) (by omega)) c h
      · rcases List.mem_singleton.mp h with rfl
        exact isDig_digitToChar (Nat.mod_lt _ (by omega))

lemma digitsToNat_append_singleton (xs : List Char) (c : Char) :
    digitsToNat (xs ++ [c]) = 10 * digitsToNat xs + charToDigit c := by
  simp [digitsToNat, List.foldl_append]

lemma digitsToNat_natToChars : ∀ n, digitsToNat (natToChars n) = n := by
  intro n
  induction n using Nat.strong_induction_on with
  | _ n ih =>
    cases n with
    | zero => rfl
    | succ m =>
      rw [natToChars_pos_eq (Nat.succ_pos m), digitsToNat_append_singleton,
        ih _ (Nat.div_lt_self (Nat.succ_pos m) (by omega)),
        charToDigit_digitToChar (Nat.mod_lt _ (by omega))]
      omega

lemma natToChars_ne_nil {n : Nat} (h : 0 < n) : natToChars n ≠ [] := by
  rw [natToChars_pos_eq h]
  simp

lemma spanDigits_append (xs ys : List Char) (hx : ∀ c ∈ xs, isDig c = true)
    (hy : ∀ c, ys.head? = some c → isDig c = false) :
    spanDigits (xs ++ ys) = (xs, ys) := by
  induction xs with
  | nil =>
    cases ys with
    | nil => rfl
    | cons c cs =>
      have : isDig c = false := hy c rfl
      simp [spanDigits, this]
  | cons x xs ih =>
    have hxd : isDig x = true := hx x (by simp)
    have ih2 := ih (fun c hc => hx c (by simp [hc]))
    simp [spanDigits, hxd, ih2]

lemma spanDigits_join : ∀ l : List Char, (spanDigits l).1 ++ (spanDigits l).2 = l := by
  intro l
  induction l with
  | nil => rfl
  | cons c cs ih =>
    by_cases h : isDig c = true
    · simp [spanDigits, h, ih]
    · simp [spanDigits, h]

lemma tryMatch_noMod (ds ss rest : List Char) (hds : ∀ c ∈ ds, isDig c = true)
    (hss : ∀ c ∈ ss, isDig c = true) (hne : ss ≠ [])
    (hr : ∀ c, rest.head? = some c → isDig c = false ∧ isSign c = false) :
    tryMatch (ds ++ 'd' :: (ss ++ rest)) = some (ds, ss, [], rest) := by
  obtain ⟨s0, st, rfl⟩ := List.exists_cons_of_ne_nil hne
  have h1 : spanDigits (ds ++ 'd' :: ((s0 :: st) ++ rest)) = (ds, 'd' :: ((s0 :: st) ++ rest)) :=
    spanDigits_append _ _ hds (by intro c hc; cases hc; decide)
  have h2 : spanDigits ((s0 :: st) ++ rest) = (s0 :: st, rest) :=
    spanDigits_append _ _ hss (fun c hc => (hr c hc).1)
  cases rest with
  | nil =>
    simp only [List.cons_append, List.append_nil] at h1 h2
    simp [tryMatch, h1, h2]
  | cons r rs =>
    have hsg : isSign r = false := (hr r rfl).2
    simp only [List.cons_append] at h1 h2
    simp [tryMatch, h1, h2, hsg]

lemma tryMatch_mod (ds ss ms rest : List Char) (sgn : Char)
    (hds : ∀ c ∈ ds, isDig c = true) (hss : ∀ c ∈ ss, isDig c = true) (hsne : ss ≠ [])
    (hsgn : isSign sgn = true)
    (hms : ∀ c ∈ ms, isDig c = true) (hmne : ms ≠ [])
    (hr : ∀ c, rest.head? = some c → isDig c = false) :
    tryMatch (ds ++ 'd' :: (ss ++ sgn :: (ms ++ rest))) = some (ds, ss, sgn :: ms, rest) := by
  obtain ⟨s0, st, rfl⟩ := List.exists_cons_of_ne_nil hsne
  obtain ⟨m0, mt, rfl⟩ := List.exists_cons_of_ne_nil hmne
  have h1 : spanDigits (ds ++ 'd' :: ((s0 :: st) ++ sgn :: ((m0 :: mt) ++ rest))) =
      (ds, 'd' :: ((s0 :: st) ++ sgn :: ((m0 :: mt) ++ rest))) :=
    spanDigits_append _ _ hds (by intro c hc; cases hc; decide)
  have h2 : spanDigits ((s0 :: st) ++ sgn :: ((m0 :: mt) ++ rest)) =
      (s0 :: st, sgn :: ((m0 :: mt) ++ rest)) :=
    spanDigits_append _ _ hss (by intro c hc; cases hc; exact not_isDig_of_isSign hsgn)
  have h3 : spanDigits ((m0 :: mt) ++ rest) = (m0 :: mt, rest) :=
    spanDigits_append _ _ hms hr
  simp only [List.cons_append] at h1 h2 h3
  simp [tryMatch, h1, h2, h3, hsgn]

lemma tryMatch_nil : tryMatch [] = none := rfl

lemma tryMatch_rest_length {l g1 g2 g3 rest} (h : tryMatch l = some (g1, g2, g3, rest)) :
    rest.length + 2 ≤ l.length := by
  unfold tryMatch at h
  split at h
  case _ ds rest2 heq1 =>
    have e1 : ds ++ 'd' :: rest2 = l := by rw [← spanDigits_join l, heq1]
    have l1 : ds.length + 1 + rest2.length = l.length := by
      rw [← e1]; simp [List.length_append]; omega
    split at h
    case _ s0 ss c rest4 heq2 =>
      have e2 : (s0 :: ss) ++ c :: rest4 = rest2 := by rw [← spanDigits_join rest2, heq2]
      have l2 : ss.length + 2 + rest4.length = rest2.length := by
        rw [← e2]; simp [List.length_append]; omega
      split at h
      · split at h
        case _ m0 mms rest5 heq3 =>
          have e3 : (m0 :: mms) ++ rest5 = rest4 := by rw [← spanDigits_join rest4, heq3]
          have l3 : mms.length + 1 + rest5.length = rest4.length := by
            rw [← e3]; simp [List.length_append]; omega
          have hr : rest = rest5 := (congrArg (fun x => x.2.2.2) (Option.some.inj h)).symm
          subst hr
          omega
        case _ heq3 =>
          have hr : rest = c :: rest4 := (congrArg (fun x => x.2.2.2) (Option.some.inj h)).symm
          subst hr
          simp only [List.length_cons]
          omega
      · have hr : rest = c :: rest4 := (congrArg (fun x => x.2.2.2) (Option.some.inj h)).symm
        subst hr
        simp only [List.length_cons]
        omega
    case _ s0 ss heq2 =>
      have e2 : (s0 :: ss) ++ ([] : List Char) = rest2 := by
        rw [← spanDigits_join rest2, heq2]
      have l2 : ss.length + 1 = rest2.length := by
        rw [← e2]; simp [List.length_append]
      have hr : rest = [] := (congrArg (fun x => x.2.2.2) (Option.some.inj h)).symm
      subst hr
      simp only [List.length_nil]
      omega
    case _ => exact absurd h (by simp)
  case _ => exact absurd h (by simp)

lemma findTermsAux_congr :
    ∀ f1 f2 l, l.length ≤ f1 → l.length ≤ f2 → findTermsAux f1 l = findTermsAux f2 l := by
  intro f1
  induction f1 with
  | zero =>
    intro f2 l h1 _
    have : l = [] := List.length_eq_zero.mp (Nat.le_zero.mp h1)
    subst this
    cases f2 <;> rfl
  | succ f ih =>
    intro f2 l h1 h2
    cases l with
    | nil => cases f2 <;> rfl
    | cons c cs =>
      cases f2 with
      | zero => simp at h2
      | succ f2p =>
        simp only [findTermsAux]
        cases h : tryMatch (c :: cs) with
        | none =>
          simp only [List.length_cons] at h1 h2
          exact ih f2p cs (by omega) (by omega)
        | some q =>
          obtain ⟨g1, g2, g3, rest⟩ := q
          have hl := tryMatch_rest_length h
          simp only [List.length_cons] at h1 h2 hl
          simp [ih f2p rest (by omega) (by omega)]

lemma findTerms_nil : findTerms [] = [] := rfl

lemma findTerms_of_tryMatch_some {l g1 g2 g3 rest}
    (h : tryMatch l = some (g1, g2, g3, rest)) :
    findTerms l = (g1, g2, g3) :: findTerms rest := by
  cases l with
  | nil => simp [tryMatch_nil] at h
  | cons c cs =>
    have hl := tryMatch_rest_length h
    simp only [List.length_cons] at hl
    show findTermsAux (cs.length + 1) (c :: cs) = _
    simp only [findTermsAux, h]
    rw [findTermsAux_congr cs.length rest.length rest (by omega) le_rfl]
    rfl

lemma findTerms_of_tryMatch_none {c : Char} {cs : List Char}
    (h : tryMatch (c :: cs) = none) :
    findTerms (c :: cs) = findTerms cs := by
  show findTermsAux (cs.length + 1) (c :: cs) = _
  simp only [findTermsAux, h]
  rfl

lemma map_pyLower_eq_self {l : List Char} (h : ∀ c ∈ l, pyLower c = c) :
    l.map pyLower = l := by
  induction l with
  | nil => rfl
  | cons c cs ih =>
    simp only [List.map_cons, h c (by simp), ih (fun x hx => h x (by simp [hx]))]

lemma normalize_mk_eq_self {l : List Char}
    (h : ∀ c ∈ l, (c != ' ') = true ∧ pyLower c = c) :
    normalize (String.mk l) = String.mk l := by
  simp only [normalize]
  rw [List.filter_eq_self.mpr (fun c hc => (h c hc).1),
    map_pyLower_eq_self (fun c hc => (h c hc).2)]

lemma data_mk (l : List Char) : (String.mk l).data = l := rfl

lemma parse_eq (s : String) :
    parse_dice_expression s =
      if rawMatches s = [] then .error (.invalidExpression (normalize s))
      else checkComponents (rawComponents s) := rfl

lemma checkComponents_ne_invalidExpression :
    ∀ (l : List (Nat × Nat × Int)) (t : String),
      checkComponents l ≠ Except.error (DiceError.invalidExpression t) := by
  intro l t
  induction l with
  | nil => simp [checkComponents]
  | cons p rest ih =>
    obtain ⟨c, s, m⟩ := p
    simp only [checkComponents]
    split
    · simp
    · split
      · simp
      · cases hrest : checkComponents rest with
        | error e =>
          intro hcontra
          rw [Except.error.inj hcontra] at hrest
          exact ih hrest
        | ok comps => simp

lemma checkComponents_find_bad :
    ∀ (l : List (Nat × Nat × Int)) (t : Nat × Nat × Int),
      l.find? badTerm = some t → checkComponents l = .error (termError t) := by
  intro l
  induction l with
  | nil => intro t h; simp [List.find?] at h
  | cons p rest ih =>
    intro t h
    obtain ⟨c, s, m⟩ := p
    rw [List.find?] at h
    by_cases hb : badTerm (c, s, m) = true
    · rw [hb] at h
      injection h with h
      subst h
      by_cases hc : (c = 0 || 100 < c) = true
      · simp [checkComponents, hc, termError]
      · have hs : (s = 0 || 1000 < s) = true := by
          simp only [badTerm] at hb
          simp only [decide_eq_true_eq, Bool.or_eq_true] at hb hc ⊢
          tauto
        simp only [checkComponents, termError]
        rw [if_neg hc, if_pos hs, if_neg hc]
    · rw [Bool.not_eq_true] at hb
      rw [hb] at h
      have hc : (c = 0 || 100 < c) = false := by
        simp only [badTerm, decide_eq_true_eq, Bool.or_eq_false_iff] at hb ⊢
        tauto
      have hs : (s = 0 || 1000 < s) = false := by
        simp only [badTerm, decide_eq_true_eq, Bool.or_eq_false_iff] at hb ⊢
        tauto
      simp only [checkComponents, hc, hs, Bool.false_eq_true, if_false]
      rw [ih t h]

/-- C3: an expression whose extracted term sequence contains an
out-of-bounds term fails at the first (leftmost) violating term, with
the error matching the violated bound (count checked before sides),
and no term list is returned. -/
theorem c3_first_violation (s : String) (t : Nat × Nat × Int)
    (h : (rawComponents s).find? badTerm = some t) :
    parse_dice_expression s = .error (termError t) := by
  have hne : rawComponents s ≠ [] := by
    intro hnil
    rw [hnil] at h
    simp [List.find?] at h
  have hm : rawMatches s ≠ [] := by
    intro hnil
    exact hne (by simp [rawComponents, hnil])
  rw [parse_eq, if_neg hm]
  exact checkComponents_find_bad _ _ h

/-- Witness for C3 at the two inputs named by the claim. -/
theorem c3_first_violation_witness :
    ((rawComponents "101d6").find? badTerm = some (101, 6, 0) ∧
      parse_dice_expression "101d6" = .error (.invalidCount 101)) ∧
    ((rawComponents "1d1001").find? badTerm = some (1, 1001, 0) ∧
      parse_dice_expression "1d1001" = .error (.invalidSides 1001)) :=
  ⟨⟨by decide, c3_first_violation "101d6" (101, 6, 0) (by decide)⟩,
    ⟨by decide, c3_first_violation "1d1001" (1, 1001, 0) (by decide)⟩⟩

/-- C7: the invalid-expression failure arises exactly when the scan
finds no term match (the message carrying the normalized text), so it
is never raised once at least one term matches; `"hello"` is such an
input. -/
theorem c7_invalid_expression :
    parse_dice_expression "hello" = .error (.invalidExpression "hello") ∧
    ∀ (s t : String),
      parse_dice_expression s = .error (.invalidExpression t) ↔
        rawMatches s = [] ∧ t = normalize s := by
  refine ⟨by decide, fun s t => ?_⟩
  by_cases h : rawMatches s = []
  · rw [parse_eq, if_pos h]
    constructor
    · intro he
      exact ⟨h, (DiceError.invalidExpression.inj (Except.error.inj he)).symm⟩
    · rintro ⟨-, rfl⟩
      rfl
  · rw [parse_eq, if_neg h]
    constructor
    · intro he
      exact absurd he (checkComponents_ne_invalidExpression _ _)
    · rintro ⟨hc, -⟩
      exact absurd hc h

/-- C8: whenever the combined roll succeeds, the expression echoed in
the third component of the result is the caller's original input,
character for character. -/
theorem c8_echo_expression (g : Nat → Nat) (s : String) (r : Int × String × String)
    (h : roll_dice g s = .ok r) : r.2.2 = s := by
  unfold roll_dice at h
  cases hp : parse_dice_expression s with
  | error e => rw [hp] at h; simp at h
  | ok comps =>
    rw [hp] at h
    simp only [Except.ok.injEq] at h
    rw [← h]

/-- Witness for C8 at a concrete generator and expression. -/
theorem c8_echo_expression_witness :
    roll_dice (fun _ => 0) "1d6" = .ok (1, "1d6: [1] = 1", "1d6") ∧
    ((1 : Int), ("1d6: [1] = 1" : String), ("1d6" : String)).2.2 = "1d6" :=
  ⟨by decide, c8_echo_expression (fun _ => 0) "1d6" (1, "1d6: [1] = 1", "1d6") (by decide)⟩

/-- C9: the boolean validation wrapper is total and reports exactly
the success or failure of parsing. -/
theorem c9_validate_iff (s : String) :
    (validate_dice_expression s = true ↔ ∃ comps, parse_dice_expression s = .ok comps) ∧
    (validate_dice_expression s = false ↔ ∃ e, parse_dice_expression s = .error e) := by
  cases h : parse_dice_expression s with
  | error e => simp [validate_dice_expression, h]
  | ok comps => simp [validate_dice_expression, h]

/-- C10: a parse failure never escapes `roll_dice` unchanged; the
result is a failure whose message is exactly `"Error rolling dice: "`
followed by the inner message, and every failure of `roll_dice` has
this shape. -/
theorem c10_error_wrapping (g : Nat → Nat) (s : String) :
    (∀ e, parse_dice_expression s = .error e →
      roll_dice g s = .error ("Error rolling dice: " ++ e.message)) ∧
    (∀ msg, roll_dice g s = .error msg →
      ∃ e, parse_dice_expression s = .error e ∧
        msg = "Error rolling dice: " ++ e.message) := by
  constructor
  · intro e he
    unfold roll_dice
    rw [he]
  · intro msg hmsg
    unfold roll_dice at hmsg
    cases hp : parse_dice_expression s with
    | error e =>
      rw [hp] at hmsg
      simp only [Except.error.injEq] at hmsg
      exact ⟨e, rfl, hmsg.symm⟩
    | ok comps =>
      rw [hp] at hmsg
      simp at hmsg

/-- Witness for C10 at the input `"hello"`. -/
theorem c10_error_wrapping_witness :
    parse_dice_expression "hello" = .error (.invalidExpression "hello") ∧
    roll_dice (fun _ => 0) "hello" =
      .error ("Error rolling dice: Invalid dice expression: hello") :=
  ⟨by decide, (c10_error_wrapping (fun _ => 0) "hello").1 (.invalidExpression "hello") (by decide)⟩

lemma rollsFor_length (g : Nat → Nat) (idx count sides : Nat) :
    (rollsFor g idx count sides).length = count := by
  simp [rollsFor]

lemma rollsFor_mem_bounds {g : Nat → Nat} {idx count sides : Nat} (hs : 1 ≤ sides) :
    ∀ x ∈ rollsFor g idx count sides, 1 ≤ x ∧ x ≤ sides := by
  intro x hx
  simp only [rollsFor, List.mem_map] at hx
  obtain ⟨j, -, rfl⟩ := hx
  have hmod : g (idx + j) % sides < sides := Nat.mod_lt _ (by omega)
  simp only [draw]
  omega

lemma list_sum_le {l : List Nat} {b : Nat} (h : ∀ x ∈ l, x ≤ b) :
    l.sum ≤ l.length * b := by
  induction l with
  | nil => simp
  | cons x xs ih =>
    simp only [List.sum_cons, List.length_cons]
    have hx := h x (by simp)
    have := ih (fun y hy => h y (by simp [hy]))
    calc x + xs.sum ≤ b + xs.length * b := by omega
    _ = (xs.length + 1) * b := by ring

lemma list_le_sum {l : List Nat} (h : ∀ x ∈ l, 1 ≤ x) : l.length ≤ l.sum := by
  induction l with
  | nil => simp
  | cons x xs ih =>
    simp only [List.sum_cons, List.length_cons]
    have hx := h x (by simp)
    have := ih (fun y hy => h y (by simp [hy]))
    omega

/-- C4: evaluation of a valid single term `(n, s, m)` (it never fails,
`evalComponents` being total on valid terms): the draw list has
exactly `n` entries, each in `[1, s]`, and the total lies in the
inclusive range `[n*1 + m, n*s + m]`, for every possible draw
outcome of the generator. -/
theorem c4_eval_bounds (g : Nat → Nat) (n s : Nat) (m : Int)
    (hn1 : 1 ≤ n) (hn2 : n ≤ 100) (hs1 : 1 ≤ s) (hs2 : s ≤ 1000) :
    (rollsFor g 0 n s).length = n ∧
    (∀ x ∈ rollsFor g 0 n s, 1 ≤ x ∧ x ≤ s) ∧
    (n : Int) * 1 + m ≤ (evalComponents g 0 [(n, s, m)]).1 ∧
    (evalComponents g 0 [(n, s, m)]).1 ≤ (n : Int) * s + m := by
  refine ⟨rollsFor_length g 0 n s, rollsFor_mem_bounds hs1, ?_, ?_⟩
  all_goals
    have hlen := rollsFor_length g 0 n s
    have hlow : (rollsFor g 0 n s).length ≤ (rollsFor g 0 n s).sum :=
      list_le_sum (fun x hx => (rollsFor_mem_bounds hs1 x hx).1)
    have hhigh : (rollsFor g 0 n s).sum ≤ (rollsFor g 0 n s).length * s :=
      list_sum_le (fun x hx => (rollsFor_mem_bounds hs1 x hx).2)
    rw [hlen] at hlow hhigh
    have hlowZ : (n : Int) ≤ ((rollsFor g 0 n s).sum : Int) := by exact_mod_cast hlow
    have hhighZ : ((rollsFor g 0 n s).sum : Int) ≤ (n : Int) * (s : Int) := by
      exact_mod_cast hhigh
    simp only [evalComponents]
    linarith

/-- Witness for C4 at a concrete generator and the term `(2, 6, -3)`. -/
theorem c4_eval_bounds_witness :
    (1 ≤ 2 ∧ 2 ≤ 100 ∧ 1 ≤ 6 ∧ 6 ≤ 1000) ∧
    ((rollsFor (fun _ => 0) 0 2 6).length = 2 ∧
      (∀ x ∈ rollsFor (fun _ => 0) 0 2 6, 1 ≤ x ∧ x ≤ 6) ∧
      (2 : Int) * 1 + (-3) ≤ (evalComponents (fun _ => 0) 0 [(2, 6, -3)]).1 ∧
      (evalComponents (fun _ => 0) 0 [(2, 6, -3)]).1 ≤ (2 : Int) * 6 + (-3)) :=
  ⟨by decide,
    c4_eval_bounds (fun _ => 0) 2 6 (-3) (by decide) (by decide) (by decide) (by decide)⟩

lemma termFragment_eq_fragmentSpec (count sides : Nat) (modifier : Int)
    (rolls : List Nat) :
    termFragment count sides modifier rolls = fragmentSpec count sides modifier rolls := by
  have hdetail :
      (match rolls with
        | [r] => "[" ++ natStr r ++ "]"
        | _ => "[" ++ String.intercalate "+" (rolls.map natStr) ++ "]") =
      "[" ++ String.intercalate "+" (rolls.map natStr) ++ "]" := by
    cases rolls with
    | nil => rfl
    | cons r rs =>
      cases rs with
      | nil => rfl
      | cons r2 rs2 => rfl
  by_cases hm : modifier = 0
  · subst hm
    simp only [termFragment, fragmentSpec, hdetail, ne_eq, not_true_eq_false, if_false,
      if_pos rfl, ite_true]
    apply String.ext
    simp [String.data_append]
  · simp only [termFragment, fragmentSpec, hdetail, ne_eq, hm, not_false_eq_true, if_true,
      if_neg hm, ite_false]
    apply String.ext
    simp [String.data_append]

lemma evalComponents_snd (g : Nat → Nat) :
    ∀ (idx : Nat) (comps : List (Nat × Nat × Int)),
      (evalComponents g idx comps).2 = specFragments g idx comps := by
  intro idx comps
  induction comps generalizing idx with
  | nil => rfl
  | cons p rest ih =>
    obtain ⟨c, s, m⟩ := p
    simp only [evalComponents, specFragments, termFragment_eq_fragmentSpec, ih]

/-- C6: every per-term fragment built by `roll_dice` equals the format
the specification prescribes (single draw still bracketed, modifier
signed exactly when nonzero, never a `+-`), and the breakdown is the
fragments joined with `" | "`. -/
theorem c6_fragment_format :
    (∀ (count sides : Nat) (modifier : Int) (rolls : List Nat),
      termFragment count sides modifier rolls = fragmentSpec count sides modifier rolls) ∧
    (∀ (g : Nat → Nat) (comps : List (Nat × Nat × Int)),
      (evalComponents g 0 comps).2 = specFragments g 0 comps) ∧
    termFragment 2 6 (-3) [4, 1] = "2d6: [4+1]-3 = 2" :=
  ⟨termFragment_eq_fragmentSpec, fun g => evalComponents_snd g 0, by decide⟩

lemma natStr_data_of_pos {n : Nat} (h : 0 < n) : (natStr n).data = natToChars n := by
  rw [natStr, if_neg (by omega)]

lemma modCharsOf_data (m : Int) :
    (if m = 0 then "" else intStrSigned m).data = modCharsOf m := by
  by_cases hm : m = 0
  · simp [hm, modCharsOf]
  · rw [if_neg hm, modCharsOf, if_neg hm]
    have habs : 0 < m.natAbs := by omega
    by_cases hneg : m < 0
    · rw [if_pos hneg, intStrSigned, if_pos hneg, intStr, if_pos hneg, String.data_append,
        natStr_data_of_pos habs]
      rfl
    · rw [if_neg hneg, intStrSigned, if_neg hneg, intStr, if_neg hneg, String.data_append,
        natStr_data_of_pos habs]
      rfl

lemma renderTerm_data {c s : Nat} (m : Int) (hc : 0 < c) (hs : 0 < s) :
    (renderTerm c s m).data = natToChars c ++ 'd' :: (natToChars s ++ modCharsOf m) := by
  have hd : ("d" : String).data = ['d'] := rfl
  simp only [renderTerm, String.data_append, natStr_data_of_pos hc, natStr_data_of_pos hs,
    modCharsOf_data, hd, List.append_assoc, List.singleton_append, List.cons_append,
    List.nil_append]

lemma modCharsOf_all {m : Int} :
    ∀ x ∈ modCharsOf m, (x != ' ') = true ∧ pyLower x = x := by
  intro x hx
  rw [modCharsOf] at hx
  by_cases hm : m = 0
  · simp [hm] at hx
  · rw [if_neg hm] at hx
    rcases List.mem_cons.mp hx with rfl | hx2
    · by_cases hneg : m < 0
      · rw [if_pos hneg]; exact ⟨by decide, by decide⟩
      · rw [if_neg hneg]; exact ⟨by decide, by decide⟩
    · have hd := natToChars_isDig _ _ hx2
      exact ⟨ne_space_of_isDig hd, pyLower_of_isDig hd⟩

lemma normalize_eq_self {s : String}
    (h : ∀ c ∈ s.data, (c != ' ') = true ∧ pyLower c = c) :
    normalize s = s := by
  simp only [normalize]
  rw [List.filter_eq_self.mpr (fun c hc => (h c hc).1),
    map_pyLower_eq_self (fun c hc => (h c hc).2)]

lemma normalize_renderTerm {c s : Nat} (m : Int) (hc : 0 < c) (hs : 0 < s) :
    normalize (renderTerm c s m) = renderTerm c s m := by
  apply normalize_eq_self
  intro x hx
  rw [renderTerm_data m hc hs] at hx
  rcases List.mem_append.mp hx with h1 | h2
  · have hd := natToChars_isDig _ _ h1
    exact ⟨ne_space_of_isDig hd, pyLower_of_isDig hd⟩
  · rcases List.mem_cons.mp h2 with rfl | h3
    · exact ⟨by decide, by decide⟩
    · rcases List.mem_append.mp h3 with h4 | h5
      · have hd := natToChars_isDig _ _ h4
        exact ⟨ne_space_of_isDig hd, pyLower_of_isDig hd⟩
      · exact modCharsOf_all x h5

lemma tryMatch_renderTerm {c s : Nat} (m : Int) (hc : 0 < c) (hs : 0 < s) :
    tryMatch (natToChars c ++ 'd' :: (natToChars s ++ modCharsOf m)) =
      some (natToChars c, natToChars s, modCharsOf m, []) := by
  by_cases hm : m = 0
  · have h0 : modCharsOf m = [] := by simp [modCharsOf, hm]
    rw [h0]
    exact tryMatch_noMod _ _ _ (natToChars_isDig c) (natToChars_isDig s)
      (natToChars_ne_nil hs) (by intro x hx; simp at hx)
  · have habs : 0 < m.natAbs := by omega
    have h0 : modCharsOf m = (if m < 0 then '-' else '+') :: natToChars m.natAbs := by
      rw [modCharsOf, if_neg hm]
    rw [h0]
    have hsgn : isSign (if m < 0 then '-' else '+') = true := by
      by_cases hneg : m < 0 <;> simp [hneg, isSign]
    have hmm := tryMatch_mod (natToChars c) (natToChars s) (natToChars m.natAbs) []
      (if m < 0 then '-' else '+') (natToChars_isDig c) (natToChars_isDig s)
      (natToChars_ne_nil hs) hsgn (natToChars_isDig _) (natToChars_ne_nil habs)
      (by intro x hx; simp at hx)
    rwa [List.append_nil] at hmm

lemma checkComponents_ok_of_all (l : List (Nat × Nat × Int))
    (h : ∀ t ∈ l, badTerm t = false) : checkComponents l = .ok l := by
  induction l with
  | nil => rfl
  | cons p rest ih =>
    obtain ⟨c, s, m⟩ := p
    have hp := h (c, s, m) (by simp)
    simp only [badTerm, Bool.or_eq_false_iff] at hp
    have hc : (c = 0 || 100 < c) = false := by
      simp only [Bool.or_eq_false_iff]
      exact ⟨hp.1.1.1, hp.1.1.2⟩
    have hs : (s = 0 || 1000 < s) = false := by
      simp only [Bool.or_eq_false_iff]
      exact ⟨hp.1.2, hp.2⟩
    simp only [checkComponents, hc, hs, Bool.false_eq_true, if_false]
    rw [ih (fun t ht => h t (by simp [ht]))]

lemma toComponent_render {c s : Nat} (m : Int) (hc : 0 < c) :
    toComponent (natToChars c, natToChars s, modCharsOf m) = (c, digitsToNat (natToChars s), m) := by
  simp only [toComponent, if_neg (natToChars_ne_nil hc), digitsToNat_natToChars]
  by_cases hm : m = 0
  · simp [modCharsOf, hm]
  · rw [modCharsOf, if_neg hm]
    by_cases hneg : m < 0
    · rw [if_pos hneg]
      simp only [if_pos rfl, digitsToNat_natToChars]
      have : ((m.natAbs : Int)) = -m := by omega
      simp [this]
    · rw [if_neg hneg]
      have hne : ('+' : Char) = '-' ↔ False := by
        constructor <;> intro h <;> simp_all
      simp only [hne, if_false, digitsToNat_natToChars]
      have : ((m.natAbs : Int)) = m := by omega
      simp [this]

/-- C2: single-term round-trip — for every in-range `(count, sides)`
and every integer modifier, parsing the rendered text
`"{count}d{sides}{modifier:+d}"` (unsigned when the modifier is zero)
yields exactly that one triple. -/
theorem c2_roundtrip (c s : Nat) (m : Int) (hc1 : 1 ≤ c) (hc2 : c ≤ 100)
    (hs1 : 1 ≤ s) (hs2 : s ≤ 1000) :
    parse_dice_expression (renderTerm c s m) = .ok [(c, s, m)] := by
  have hc : 0 < c := hc1
  have hs : 0 < s := hs1
  have hmatch := tryMatch_renderTerm m hc hs
  have hfind : findTerms (renderTerm c s m).data =
      [(natToChars c, natToChars s, modCharsOf m)] := by
    rw [renderTerm_data m hc hs, findTerms_of_tryMatch_some hmatch, findTerms_nil]
  have hraw : rawMatches (renderTerm c s m) =
      [(natToChars c, natToChars s, modCharsOf m)] := by
    rw [rawMatches, normalize_renderTerm m hc hs, hfind]
  rw [parse_eq, if_neg (by rw [hraw]; simp), rawComponents, hraw]
  simp only [List.map_cons, List.map_nil, toComponent_render m hc, digitsToNat_natToChars]
  apply checkComponents_ok_of_all
  intro t ht
  rcases List.mem_singleton.mp ht with rfl
  simp only [badTerm, Bool.or_eq_false_iff, decide_eq_false_iff_not]
  omega

/-- Witness for C2 at the triple `(2, 6, -3)`. -/
theorem c2_roundtrip_witness :
    (1 ≤ 2 ∧ 2 ≤ 100 ∧ 1 ≤ 6 ∧ 6 ≤ 1000) ∧
    parse_dice_expression (renderTerm 2 6 (-3)) = .ok [(2, 6, -3)] :=
  ⟨by decide, c2_roundtrip 2 6 (-3) (by decide) (by decide) (by decide) (by decide)⟩

/-- C1 counterexample: on `"1d4+1d6"` the scan greedily consumes
`"+1"` as the modifier of the first term, so parsing yields
`(1,4,1)` and `(1,6,0)` — not the two modifier-0 terms the claim
states. -/
theorem c1_counterexample :
    parse_dice_expression "1d4+1d6" = .ok [(1, 4, 1), (1, 6, 0)] ∧
    parse_dice_expression "1d4+1d6" ≠ .ok [(1, 4, 0), (1, 6, 0)] := by decide

lemma digit_char_facts {y : Char} (hy : isDig y = true) :
    (y != ' ') = true ∧ pyLower y = y :=
  ⟨ne_space_of_isDig hy, pyLower_of_isDig hy⟩

/-- C1 amended: in `"XdY+ZdW"` the `+Z` run is consumed as the
modifier of the first term (greedy optional group), and the following
`dW` becomes a term with defaulted count 1: the parse yields
`[(X, Y, +Z), (1, W, 0)]`. -/
theorem c1_adjacent_greedy (X Y Z W : Nat)
    (hX1 : 1 ≤ X) (hX2 : X ≤ 100) (hY1 : 1 ≤ Y) (hY2 : Y ≤ 1000)
    (hZ1 : 1 ≤ Z) (hW1 : 1 ≤ W) (hW2 : W ≤ 1000) :
    parse_dice_expression
        (natStr X ++ "d" ++ natStr Y ++ "+" ++ natStr Z ++ "d" ++ natStr W) =
      .ok [(X, Y, (Z : Int)), (1, W, 0)] := by
  have hX : 0 < X := hX1
  have hY : 0 < Y := hY1
  have hZ : 0 < Z := hZ1
  have hW : 0 < W := hW1
  have hd : ("d" : String).data = ['d'] := rfl
  have hp : ("+" : String).data = ['+'] := rfl
  have hdata :
      (natStr X ++ "d" ++ natStr Y ++ "+" ++ natStr Z ++ "d" ++ natStr W).data =
        natToChars X ++ 'd' ::
          (natToChars Y ++ '+' :: (natToChars Z ++ 'd' :: natToChars W)) := by
    simp only [String.data_append, natStr_data_of_pos hX, natStr_data_of_pos hY,
      natStr_data_of_pos hZ, natStr_data_of_pos hW, hd, hp, List.append_assoc,
      List.singleton_append, List.cons_append, List.nil_append]
  have hm1 : tryMatch (natToChars X ++ 'd' ::
        (natToChars Y ++ '+' :: (natToChars Z ++ 'd' :: natToChars W))) =
      some (natToChars X, natToChars Y, '+' :: natToChars Z, 'd' :: natToChars W) :=
    tryMatch_mod (natToChars X) (natToChars Y) (natToChars Z) ('d' :: natToChars W) '+'
      (natToChars_isDig X) (natToChars_isDig Y) (natToChars_ne_nil hY) (by decide)
      (natToChars_isDig Z) (natToChars_ne_nil hZ)
      (by
        intro x hx
        rw [List.head?_cons] at hx
        injection hx with hx
        subst hx
        decide)
  have hm2 : tryMatch ('d' :: natToChars W) = some ([], natToChars W, [], []) := by
    have hmm := tryMatch_noMod [] (natToChars W) [] (by simp) (natToChars_isDig W)
      (natToChars_ne_nil hW) (by intro x hx; simp at hx)
    simpa using hmm
  have hnorm : normalize
      (natStr X ++ "d" ++ natStr Y ++ "+" ++ natStr Z ++ "d" ++ natStr W) =
      natStr X ++ "d" ++ natStr Y ++ "+" ++ natStr Z ++ "d" ++ natStr W := by
    apply normalize_eq_self
    intro x hx
    rw [hdata] at hx
    simp only [List.mem_append, List.mem_cons] at hx
    rcases hx with h | rfl | h | rfl | h | rfl | h
    · exact digit_char_facts (natToChars_isDig _ _ h)
    · exact ⟨by decide, by decide⟩
    · exact digit_char_facts (natToChars_isDig _ _ h)
    · exact ⟨by decide, by decide⟩
    · exact digit_char_facts (natToChars_isDig _ _ h)
    · exact ⟨by decide, by decide⟩
    · exact digit_char_facts (natToChars_isDig _ _ h)
  have hraw : rawMatches
      (natStr X ++ "d" ++ natStr Y ++ "+" ++ natStr Z ++ "d" ++ natStr W) =
      [(natToChars X, natToChars Y, '+' :: natToChars Z), ([], natToChars W, [])] := by
    rw [rawMatches, hnorm, hdata, findTerms_of_tryMatch_some hm1,
      findTerms_of_tryMatch_some hm2, findTerms_nil]
  rw [parse_eq, if_neg (by rw [hraw]; simp), rawComponents, hraw]
  have ht1 : toComponent (natToChars X, natToChars Y, '+' :: natToChars Z) =
      (X, Y, (Z : Int)) := by
    simp only [toComponent, if_neg (natToChars_ne_nil hX), digitsToNat_natToChars,
      if_neg (by decide : ¬ ('+' : Char) = '-')]
  have ht2 : toComponent ([], natToChars W, []) = (1, W, 0) := by
    simp [toComponent, digitsToNat_natToChars]
  simp only [List.map_cons, List.map_nil, ht1, ht2]
  apply checkComponents_ok_of_all
  intro t ht
  simp only [List.mem_cons, List.not_mem_nil, or_false] at ht
  rcases ht with rfl | rfl
  · simp only [badTerm, Bool.or_eq_false_iff, decide_eq_false_iff_not]
    omega
  · simp only [badTerm, Bool.or_eq_false_iff, decide_eq_false_iff_not]
    omega

/-- Witness for the amended C1, reproducing `parse("1d4+1d6")`. -/
theorem c1_adjacent_greedy_witness :
    (1 ≤ 1 ∧ 1 ≤ 100 ∧ 1 ≤ 4 ∧ 4 ≤ 1000 ∧ 1 ≤ 1 ∧ 1 ≤ 6 ∧ 6 ≤ 1000) ∧
    parse_dice_expression
        (natStr 1 ++ "d" ++ natStr 4 ++ "+" ++ natStr 1 ++ "d" ++ natStr 6) =
      .ok [(1, 4, (1 : Int)), (1, 6, 0)] :=
  ⟨by decide, c1_adjacent_greedy 1 4 1 6 (by decide) (by decide) (by decide) (by decide)
    (by decide) (by decide) (by decide)⟩

/-- C5 counterexample: only the space character is stripped by
normalization, so inserting a tab (a whitespace character) into
`"1d6"` changes a successful parse into an invalid-expression
failure. -/
theorem c5_counterexample :
    parse_dice_expression "1d6" = .ok [(1, 6, 0)] ∧
    parse_dice_expression "1d\t6" = .error (.invalidExpression "1d\t6") ∧
    parse_dice_expression "1d\t6" ≠ parse_dice_expression "1d6" := by decide

lemma parse_congr {s t : String} (h : normalize s = normalize t) :
    parse_dice_expression s = parse_dice_expression t := by
  simp only [parse_eq, rawMatches, rawComponents, h]

/-- C5 amended: parsing is unchanged by inserting space characters
(the only whitespace stripped by normalization) anywhere in the text,
and by replacing `d` with `D`, which lowercasing maps back. -/
theorem c5_space_and_case (u v : List Char) :
    parse_dice_expression (String.mk (u ++ ' ' :: v)) =
      parse_dice_expression (String.mk (u ++ v)) ∧
    parse_dice_expression (String.mk (u ++ 'D' :: v)) =
      parse_dice_expression (String.mk (u ++ 'd' :: v)) := by
  constructor
  · apply parse_congr
    simp only [normalize, data_mk, List.filter_append, List.filter_cons]
    have hsp : ((' ' : Char) != ' ') = false := rfl
    rw [hsp]
    simp
  · apply parse_congr
    simp only [normalize, data_mk, List.filter_append, List.filter_cons]
    have hD : (('D' : Char) != ' ') = true := rfl
    have hd : (('d' : Char) != ' ') = true := rfl
    rw [hD, hd]
    simp only [if_true, List.map_append, List.map_cons]
    have : pyLower 'D' = pyLower 'd' := rfl
    rw [this]

end VTT
